import Mathlib

/-!
Verification of the DeFi-on-Arc repository specification against the code.

The repository splits into two parts:

* the indexer worker (`indexer/index.js`): only its README is present in the
  source tree, so the Event Ingestor, Pool Registry and Persistence Sink are
  modelled here from the specification text (sections 4.2, 4.3, 4.5 and 8);
  all such definitions carry a doc comment starting `Modelled from the spec:`.
* the frontend (`src/hooks/useBridge.ts`, `src/components/ActivityTab.tsx`,
  `src/utils/addArcTestnet.ts`, the SQL migration adding `sender_address`):
  these files are present and are embedded directly from their source.

Machine integers do not occur: block numbers, log indices and token amounts
are arbitrary-precision (`BigInt` / Postgres numeric / JS safe integers used
as counters), so they are modelled as `Nat`.
-/

namespace Defi

/-! ## Persistence sink: swap-event store -/

/-- A stored swap event row, after the `sender_address` migration:
`swap_events(tx_hash, log_index, pool_address, token_in, token_out,
amount_in, amount_out, sender_address NULLABLE, timestamp)` with primary key
`(tx_hash, log_index)`.  `senderAddress = none` models SQL NULL. -/
structure SwapEvent where
  txHash : String
  logIndex : Nat
  poolAddress : String
  tokenIn : String
  tokenOut : String
  amountIn : Nat
  amountOut : Nat
  senderAddress : Option String
  timestamp : Nat
deriving DecidableEq

/-- Does the store already hold a row with the given natural key
`(txHash, logIndex)`? -/
def hasKey (store : List SwapEvent) (txHash : String) (logIndex : Nat) : Bool :=
  store.any fun x => x.txHash == txHash && x.logIndex == logIndex

/-- Modelled from the spec: the Persistence Sink's idempotent upsert of one
`SwapEvent`, keyed by the natural key `(txHash, logIndex)` (spec section 4.5;
`indexer/index.js` is not under the source tree).  A row whose key already
exists is left unchanged (rows are immutable once written); otherwise the row
is appended. -/
def upsertEvent (store : List SwapEvent) (e : SwapEvent) : List SwapEvent :=
  if hasKey store e.txHash e.logIndex then store else store ++ [e]

/-- Modelled from the spec: `upsertEvents`, the batch upsert used by
`ingest`, applying `upsertEvent` to each decoded event in order. -/
def upsertEvents (store : List SwapEvent) (es : List SwapEvent) : List SwapEvent :=
  es.foldl upsertEvent store

theorem hasKey_upsertEvent_mono (store : List SwapEvent) (e : SwapEvent)
    (t : String) (i : Nat) (h : hasKey store t i = true) :
    hasKey (upsertEvent store e) t i = true := by
  unfold upsertEvent
  split
  · exact h
  · unfold hasKey at h ⊢
    simp only [List.any_append, Bool.or_eq_true]
    exact Or.inl h

theorem hasKey_upsertEvent_self (store : List SwapEvent) (e : SwapEvent) :
    hasKey (upsertEvent store e) e.txHash e.logIndex = true := by
  unfold upsertEvent
  split
  · assumption
  · unfold hasKey
    simp

theorem hasKey_upsertEvents_mono (es : List SwapEvent) (store : List SwapEvent)
    (t : String) (i : Nat) (h : hasKey store t i = true) :
    hasKey (upsertEvents store es) t i = true := by
  induction es generalizing store with
  | nil => exact h
  | cons e es ih =>
    exact ih (upsertEvent store e) (hasKey_upsertEvent_mono store e t i h)

theorem hasKey_upsertEvents_of_mem (es : List SwapEvent) (store : List SwapEvent)
    (e : SwapEvent) (h : e ∈ es) :
    hasKey (upsertEvents store es) e.txHash e.logIndex = true := by
  induction es generalizing store with
  | nil => cases h
  | cons x xs ih =>
    rcases List.mem_cons.mp h with rfl | hmem
    · exact hasKey_upsertEvents_mono xs (upsertEvent store e) e.txHash e.logIndex
        (hasKey_upsertEvent_self store e)
    · exact ih (upsertEvent store x) hmem

theorem upsertEvent_of_hasKey (store : List SwapEvent) (e : SwapEvent)
    (h : hasKey store e.txHash e.logIndex = true) : upsertEvent store e = store := by
  unfold upsertEvent
  simp [h]

theorem upsertEvents_of_all_keys (es : List SwapEvent) (store : List SwapEvent)
    (h : ∀ e ∈ es, hasKey store e.txHash e.logIndex = true) :
    upsertEvents store es = store := by
  induction es generalizing store with
  | nil => rfl
  | cons x xs ih =>
    have hx := upsertEvent_of_hasKey store x (h x (List.mem_cons_self x xs))
    show upsertEvents (upsertEvent store x) xs = store
    rw [hx]
    exact ih store (fun e he => h e (List.mem_cons_of_mem x he))

/-- C2: an upsert of a `SwapEvent` whose `(txHash, logIndex)` key already
exists in the store is a no-op, leaving the stored rows unchanged; hence
re-running the ingestion of an already-processed block range (the same
decoded events) a second time produces zero additional stored rows. -/
theorem upsert_idempotent :
    (∀ (store : List SwapEvent) (e : SwapEvent),
        hasKey store e.txHash e.logIndex = true → upsertEvent store e = store) ∧
    (∀ (store : List SwapEvent) (es : List SwapEvent),
        upsertEvents (upsertEvents store es) es = upsertEvents store es) := by
  constructor
  · exact upsertEvent_of_hasKey
  · intro store es
    exact upsertEvents_of_all_keys es (upsertEvents store es)
      (fun e he => hasKey_upsertEvents_of_mem es store e he)

/-- A concrete run of C2: upserting a row whose key is already stored is a
no-op, and a double batch ingest equals a single one. -/
theorem upsert_idempotent_witness :
    (upsertEvent
        [⟨"0xaa", 0, "0xp", "0xt1", "0xt2", 5, 7, some "0xs", 100⟩]
        ⟨"0xaa", 0, "0xp", "0xt1", "0xt2", 9, 9, none, 200⟩
      = [⟨"0xaa", 0, "0xp", "0xt1", "0xt2", 5, 7, some "0xs", 100⟩]) ∧
    (upsertEvents
        (upsertEvents [] [⟨"0xaa", 0, "0xp", "0xt1", "0xt2", 5, 7, some "0xs", 100⟩])
        [⟨"0xaa", 0, "0xp", "0xt1", "0xt2", 5, 7, some "0xs", 100⟩]
      = upsertEvents [] [⟨"0xaa", 0, "0xp", "0xt1", "0xt2", 5, 7, some "0xs", 100⟩]) := by
  constructor
  · exact upsert_idempotent.1
      [⟨"0xaa", 0, "0xp", "0xt1", "0xt2", 5, 7, some "0xs", 100⟩]
      ⟨"0xaa", 0, "0xp", "0xt1", "0xt2", 9, 9, none, 200⟩ (by decide)
  · exact upsert_idempotent.2 []
      [⟨"0xaa", 0, "0xp", "0xt1", "0xt2", 5, 7, some "0xs", 100⟩]

/-! ## Event ingestor: block-range splitting and the watermark -/

/-- A tracked pool (spec section 3): address, the two reserve-asset
addresses, the factory-creation block and the ingestion watermark
`lastIngestedBlock`. -/
structure Pool where
  address : String
  tokenA : String
  tokenB : String
  createdAtBlock : Nat
  lastIngestedBlock : Nat
deriving DecidableEq

/-- Modelled from the spec: splitting of the block range `[a, b]` into
sequential sub-ranges of width at most `cap` (spec section 4.3: a range wider
than the per-call cap is split into sequential sub-ranges processed in
order; `indexer/index.js` is not under the source tree).  Fuel-recursive;
`splitRange` supplies fuel `b + 1 - a`, which suffices whenever `1 ≤ cap`. -/
def splitRangeAux (cap : Nat) : Nat → Nat → Nat → List (Nat × Nat)
  | 0, _, _ => []
  | fuel + 1, a, b =>
    if a > b then []
    else
      let e := min (a + cap - 1) b
      (a, e) :: splitRangeAux cap fuel (e + 1) b

/-- Modelled from the spec: split of the inclusive block range `[a, b]` into
sub-ranges of width at most `cap`. -/
def splitRange (cap a b : Nat) : List (Nat × Nat) :=
  splitRangeAux cap (b + 1 - a) a b

/-- Modelled from the spec: sequential processing of the sub-ranges of one
ingest call.  `ok r` says whether sub-range `r`'s log query and store writes
were confirmed durable; after a successful sub-range the watermark advances
to its end, and a failure stops the call (spec section 4.3: the watermark is
never advanced past a range whose writes have not been confirmed). -/
def processSubranges (ok : Nat × Nat → Bool) : Nat → List (Nat × Nat) → Nat
  | w, [] => w
  | w, r :: rs => if ok r then processSubranges ok r.2 rs else w

/-- Modelled from the spec: one `ingest(pool)` call (spec section 4.3).  The
range `(lastIngestedBlock + 1, head)` is split by `cap`; a stale head
(`head < lastIngestedBlock`) skips the pool for the cycle. -/
def ingest (cap : Nat) (ok : Nat × Nat → Bool) (head : Nat) (p : Pool) : Pool :=
  if head < p.lastIngestedBlock then p
  else
    let w := processSubranges ok p.lastIngestedBlock
      (splitRange cap (p.lastIngestedBlock + 1) head)
    { p with lastIngestedBlock := w }

/-- Modelled from the spec: a sequence of ingest calls for one pool, each
with its own failure pattern and observed chain head.  Since the watermark is
persisted (not recomputed), a process restart just continues the sequence
from the persisted pool state, so this fold covers restarts as well. -/
def ingestSeq (cap : Nat) (calls : List ((Nat × Nat → Bool) × Nat)) (p : Pool) : Pool :=
  calls.foldl (fun q c => ingest cap c.1 c.2 q) p

theorem splitRangeAux_bounds (cap : Nat) :
    ∀ (fuel a b : Nat) (r : Nat × Nat), r ∈ splitRangeAux cap fuel a b →
      a ≤ r.2 + 1 ∧ r.2 ≤ b := by
  intro fuel
  induction fuel with
  | zero => intro a b r h; cases h
  | succ fuel ih =>
    intro a b r h
    unfold splitRangeAux at h
    split at h
    · cases h
    · rcases List.mem_cons.mp h with rfl | hmem
      · constructor <;> omega
      · have := ih (min (a + cap - 1) b + 1) b r hmem
        constructor <;> omega

theorem processSubranges_cases (ok : Nat × Nat → Bool) :
    ∀ (rs : List (Nat × Nat)) (w : Nat),
      processSubranges ok w rs = w ∨
        ∃ r ∈ rs, ok r = true ∧ processSubranges ok w rs = r.2 := by
  intro rs
  induction rs with
  | nil => intro w; exact Or.inl rfl
  | cons r rs ih =>
    intro w
    by_cases hok : ok r = true
    · have hstep : processSubranges ok w (r :: rs) = processSubranges ok r.2 rs := by
        simp [processSubranges, hok]
      rcases ih r.2 with h | ⟨r', hmem, hok', h⟩
      · exact Or.inr ⟨r, List.mem_cons_self r rs, hok, by rw [hstep, h]⟩
      · exact Or.inr ⟨r', List.mem_cons_of_mem r hmem, hok', by rw [hstep, h]⟩
    · left
      simp [processSubranges, hok]

theorem ingest_le (cap : Nat) (ok : Nat × Nat → Bool) (head : Nat) (p : Pool) :
    p.lastIngestedBlock ≤ (ingest cap ok head p).lastIngestedBlock := by
  unfold ingest
  split
  · exact Nat.le_refl _
  · show p.lastIngestedBlock ≤ processSubranges ok p.lastIngestedBlock
      (splitRange cap (p.lastIngestedBlock + 1) head)
    rcases processSubranges_cases ok
        (splitRange cap (p.lastIngestedBlock + 1) head) p.lastIngestedBlock
      with h | ⟨r, hmem, _, h⟩
    · rw [h]
    · rw [h]
      have := splitRangeAux_bounds cap (head + 1 - (p.lastIngestedBlock + 1))
        (p.lastIngestedBlock + 1) head r hmem
      omega

/-- C1: the watermark `lastIngestedBlock` of a pool is monotonically
non-decreasing, both across one `ingest` call (which may fail partway
through its sub-range split: `ok` marks which sub-ranges' writes were
confirmed) and across any sequence of ingest calls.  The watermark is
persisted, so a restart resumes the same sequence from the persisted value:
the fold in `ingestSeq` covers the process lifetime and restarts alike. -/
theorem ingest_watermark_monotone :
    (∀ (cap : Nat) (ok : Nat × Nat → Bool) (head : Nat) (p : Pool),
        p.lastIngestedBlock ≤ (ingest cap ok head p).lastIngestedBlock) ∧
    (∀ (cap : Nat) (calls : List ((Nat × Nat → Bool) × Nat)) (p : Pool),
        p.lastIngestedBlock ≤ (ingestSeq cap calls p).lastIngestedBlock) := by
  constructor
  · exact ingest_le
  · intro cap calls
    induction calls with
    | nil => intro p; exact Nat.le_refl _
    | cons c cs ih =>
      intro p
      exact Nat.le_trans (ingest_le cap c.1 c.2 p) (ih (ingest cap c.1 c.2 p))

theorem splitRangeAux_cover (cap : Nat) (hcap : 1 ≤ cap) :
    ∀ (fuel a b : Nat), b + 1 - a ≤ fuel →
      (splitRangeAux cap fuel a b).flatMap
          (fun r => List.range' r.1 (r.2 + 1 - r.1)) =
        List.range' a (b + 1 - a) := by
  intro fuel
  induction fuel with
  | zero =>
    intro a b hf
    have hab : b + 1 - a = 0 := Nat.le_zero.mp hf
    simp [splitRangeAux, hab]
  | succ fuel ih =>
    intro a b hf
    unfold splitRangeAux
    split
    · have : b + 1 - a = 0 := by omega
      simp [this]
    · rename_i hab
      have hab' : a ≤ b := by omega
      have he1 : a ≤ min (a + cap - 1) b := by omega
      have he2 : min (a + cap - 1) b ≤ b := by omega
      simp only [List.flatMap_cons]
      rw [ih (min (a + cap - 1) b + 1) b (by omega)]
      have hmain := List.range'_append a (min (a + cap - 1) b + 1 - a)
        (b + 1 - (min (a + cap - 1) b + 1)) 1
      have hs : a + 1 * (min (a + cap - 1) b + 1 - a) = min (a + cap - 1) b + 1 := by
        omega
      have hn : b + 1 - (min (a + cap - 1) b + 1) + (min (a + cap - 1) b + 1 - a) =
          b + 1 - a := by omega
      rw [hs, hn] at hmain
      exact hmain

/-- Union of a list of inclusive block sub-ranges, as the concatenation of
the block numbers each sub-range covers. -/
def rangeUnion (rs : List (Nat × Nat)) : List Nat :=
  rs.flatMap fun r => List.range' r.1 (r.2 + 1 - r.1)

/-- C4: for a positive per-call cap and a range `(lastIngestedBlock + 1,
head)` to ingest, the sub-ranges produced by the split cover exactly the
original range — their concatenated union is the very list of blocks
`lastIngestedBlock + 1, ..., head`, so there is no gap, no overlap and no
reordering — and the watermark after the call either stays put or equals the
right endpoint of a sub-range whose writes were confirmed durable (`ok`). -/
theorem range_split_exact_cover (cap head : Nat) (p : Pool) (ok : Nat × Nat → Bool)
    (hcap : 1 ≤ cap) (hhead : p.lastIngestedBlock ≤ head) :
    rangeUnion (splitRange cap (p.lastIngestedBlock + 1) head) =
        List.range' (p.lastIngestedBlock + 1) (head - p.lastIngestedBlock) ∧
      ((ingest cap ok head p).lastIngestedBlock = p.lastIngestedBlock ∨
        ∃ r ∈ splitRange cap (p.lastIngestedBlock + 1) head,
          ok r = true ∧ (ingest cap ok head p).lastIngestedBlock = r.2) := by
  constructor
  · have := splitRangeAux_cover cap hcap (head + 1 - (p.lastIngestedBlock + 1))
      (p.lastIngestedBlock + 1) head (Nat.le_refl _)
    unfold rangeUnion splitRange
    rw [this]
    congr 1
    omega
  · have hni : ¬ head < p.lastIngestedBlock := by omega
    have : (ingest cap ok head p).lastIngestedBlock =
        processSubranges ok p.lastIngestedBlock
          (splitRange cap (p.lastIngestedBlock + 1) head) := by
      unfold ingest
      rw [if_neg hni]
    rw [this]
    exact processSubranges_cases ok (splitRange cap (p.lastIngestedBlock + 1) head)
      p.lastIngestedBlock

/-- The pool used in the concrete run of C4: watermark 10. -/
def wPool : Pool := ⟨"0xpool", "0xa", "0xb", 5, 10⟩

/-- The durability oracle of the concrete run of C4: only writes of
sub-ranges ending at or before block 16 succeed. -/
def wOk : Nat × Nat → Bool := fun r => decide (r.2 ≤ 16)

/-- A concrete run of C4: watermark 10, head 25, cap 6: the split is
`[(11, 16), (17, 22), (23, 25)]`, whose union is exactly blocks 11..25; with
the later sub-ranges failing, the watermark stops at 16, the end of the last
confirmed sub-range. -/
theorem range_split_exact_cover_witness :
    rangeUnion (splitRange 6 (wPool.lastIngestedBlock + 1) 25) =
        List.range' (wPool.lastIngestedBlock + 1) (25 - wPool.lastIngestedBlock) ∧
      ((ingest 6 wOk 25 wPool).lastIngestedBlock = wPool.lastIngestedBlock ∨
        ∃ r ∈ splitRange 6 (wPool.lastIngestedBlock + 1) 25,
          wOk r = true ∧ (ingest 6 wOk 25 wPool).lastIngestedBlock = r.2) :=
  range_split_exact_cover 6 25 wPool wOk (by decide) (by decide)

/-! ## Pool registry: discovery -/

/-- A decoded `PoolCreated` log from the factory contract. -/
structure PoolCreatedLog where
  poolAddress : String
  tokenA : String
  tokenB : String
  blockNumber : Nat
deriving DecidableEq

/-- Modelled from the spec: the `Pool` constructed from one factory
`PoolCreated` log, with `lastIngestedBlock = createdAtBlock - 1` (spec
section 4.2; `indexer/index.js` is not under the source tree). -/
def poolOfLog (l : PoolCreatedLog) : Pool :=
  { address := l.poolAddress, tokenA := l.tokenA, tokenB := l.tokenB,
    createdAtBlock := l.blockNumber, lastIngestedBlock := l.blockNumber - 1 }

/-- Is a pool with this address already known to the registry? -/
def knownPool (st : List Pool) (addr : String) : Bool :=
  st.any fun p => p.address == addr

/-- Modelled from the spec: `discoverNewPools()` over the factory logs of the
queried range (spec section 4.2).  Each log's pool is added to the known set
only if its address is not already present (keyed by address — idempotent).
Returns the newly found pools and the updated known set. -/
def discoverNewPools : List Pool → List PoolCreatedLog → List Pool × List Pool
  | st, [] => ([], st)
  | st, l :: ls =>
    if knownPool st l.poolAddress then discoverNewPools st ls
    else
      let rest := discoverNewPools (st ++ [poolOfLog l]) ls
      (poolOfLog l :: rest.1, rest.2)

theorem knownPool_append (st : List Pool) (q : Pool) (addr : String)
    (h : knownPool st addr = true) : knownPool (st ++ [q]) addr = true := by
  unfold knownPool at h ⊢
  simp only [List.any_append, Bool.or_eq_true]
  exact Or.inl h

theorem discover_state_known (logs : List PoolCreatedLog) :
    ∀ (st : List Pool) (addr : String), knownPool st addr = true →
      knownPool (discoverNewPools st logs).2 addr = true := by
  induction logs with
  | nil => intro st addr h; exact h
  | cons l ls ih =>
    intro st addr h
    unfold discoverNewPools
    split
    · exact ih st addr h
    · exact ih (st ++ [poolOfLog l]) addr (knownPool_append st (poolOfLog l) addr h)

theorem discover_logs_known (logs : List PoolCreatedLog) :
    ∀ (st : List Pool) (l : PoolCreatedLog), l ∈ logs →
      knownPool (discoverNewPools st logs).2 l.poolAddress = true := by
  induction logs with
  | nil => intro st l h; cases h
  | cons x xs ih =>
    intro st l h
    unfold discoverNewPools
    rcases List.mem_cons.mp h with rfl | hmem
    · split
      · rename_i hk
        exact discover_state_known xs st l.poolAddress hk
      · refine discover_state_known xs (st ++ [poolOfLog l]) l.poolAddress ?_
        unfold knownPool
        simp [poolOfLog]
    · split
      · exact ih st l hmem
      · exact ih (st ++ [poolOfLog x]) l hmem

theorem discover_noop (logs : List PoolCreatedLog) :
    ∀ (st : List Pool), (∀ l ∈ logs, knownPool st l.poolAddress = true) →
      discoverNewPools st logs = ([], st) := by
  induction logs with
  | nil => intro st _; rfl
  | cons x xs ih =>
    intro st h
    unfold discoverNewPools
    rw [if_pos (h x (List.mem_cons_self x xs))]
    exact ih st (fun l hl => h l (List.mem_cons_of_mem x hl))

theorem discover_nodup (logs : List PoolCreatedLog) :
    ∀ (st : List Pool), (st.map Pool.address).Nodup →
      ((discoverNewPools st logs).2.map Pool.address).Nodup := by
  induction logs with
  | nil => intro st h; exact h
  | cons x xs ih =>
    intro st h
    unfold discoverNewPools
    split
    · exact ih st h
    · rename_i hk
      refine ih (st ++ [poolOfLog x]) ?_
      have hx : x.poolAddress ∉ st.map Pool.address := by
        intro hmem
        rcases List.mem_map.mp hmem with ⟨p, hp, hpa⟩
        have : knownPool st x.poolAddress = true := by
          unfold knownPool
          rw [List.any_eq_true]
          exact ⟨p, hp, by simp [hpa]⟩
        simp [this] at hk
      simp only [List.map_append, List.map_cons, List.map_nil]
      rw [List.nodup_append]
      refine ⟨h, List.nodup_singleton _, ?_⟩
      simp only [poolOfLog, List.Disjoint, List.mem_singleton]
      intro a ha hcontra
      rw [List.mem_map] at ha
      rcases ha with ⟨p, hp, hpa⟩
      subst hcontra
      exact hx (List.mem_map.mpr ⟨p, hp, hpa⟩)

/-- C7: a second `discoverNewPools()` run over the same factory logs (the
case of an overlapping re-scan; with no new factory events the second
queried range is at most the same logs again) returns zero new pools and
leaves the known set unchanged; and the known set never acquires duplicate
addresses, because pools are keyed by address and re-adding an existing
address is a no-op. -/
theorem discover_idempotent :
    ∀ (st : List Pool) (logs : List PoolCreatedLog),
      (discoverNewPools (discoverNewPools st logs).2 logs).1 = [] ∧
      (discoverNewPools (discoverNewPools st logs).2 logs).2 =
        (discoverNewPools st logs).2 ∧
      ((st.map Pool.address).Nodup →
        ((discoverNewPools st logs).2.map Pool.address).Nodup) := by
  intro st logs
  have hall : ∀ l ∈ logs,
      knownPool (discoverNewPools st logs).2 l.poolAddress = true :=
    fun l hl => discover_logs_known logs st l hl
  have hnoop := discover_noop logs (discoverNewPools st logs).2 hall
  refine ⟨?_, ?_, fun h => discover_nodup logs st h⟩
  · rw [hnoop]
  · rw [hnoop]

/-- A concrete run of C7: one factory log discovered once; the second run
finds nothing new, keeps the state, and the address list stays duplicate
free. -/
theorem discover_idempotent_witness :
    (discoverNewPools
        (discoverNewPools [] [⟨"0xpool1", "0xa", "0xb", 42⟩]).2
        [⟨"0xpool1", "0xa", "0xb", 42⟩]).1 = [] ∧
    (discoverNewPools
        (discoverNewPools [] [⟨"0xpool1", "0xa", "0xb", 42⟩]).2
        [⟨"0xpool1", "0xa", "0xb", 42⟩]).2 =
      (discoverNewPools [] [⟨"0xpool1", "0xa", "0xb", 42⟩]).2 ∧
    ((discoverNewPools [] [⟨"0xpool1", "0xa", "0xb", 42⟩]).2.map
        Pool.address).Nodup := by
  have h := discover_idempotent [] [⟨"0xpool1", "0xa", "0xb", 42⟩]
  exact ⟨h.1, h.2.1, h.2.2 (by decide)⟩

/-! ## Consumer-facing store query (`ActivityTab.tsx` against PostgREST) -/

/-- The timestamp-descending comparison used to order query results. -/
def tsDescBool (e1 e2 : SwapEvent) : Bool := decide (e2.timestamp ≤ e1.timestamp)

/-- Modelled from the spec: the consumer-facing read interface of the store
(spec section 6: point queries by sender address, ordered by timestamp
descending, paginated by limit; the filter itself runs in the external
PostgREST layer, not in the repository source).  This is the query that
`fetchSwapEvents` in `src/src/components/ActivityTab.tsx` issues as
`swap_events?sender_address=eq.<addr>&order=timestamp.desc&limit=<lim>`:
keep the rows whose `sender_address` equals the given address (a SQL NULL
never compares equal to any address), order by timestamp descending, and
truncate to the limit. -/
def querySwapEventsBySender (store : List SwapEvent) (a : String) (lim : Nat) :
    List SwapEvent :=
  ((store.filter fun e => e.senderAddress == some a).mergeSort tsDescBool).take lim

/-- The concrete query of `fetchSwapEvents` in `ActivityTab.tsx`: the
connected account address, lowercased, with limit 1000. -/
def fetchSwapEvents (store : List SwapEvent) (address : String) : List SwapEvent :=
  querySwapEventsBySender store address.toLower 1000

/-- C3: the persisted-event query filtered by `sender_address = A` returns
only events whose stored sender (the decoded transaction sender written by
the indexer) is `A`, in timestamp-descending order, with at most `lim` rows. -/
theorem query_by_sender_correct :
    ∀ (store : List SwapEvent) (a : String) (lim : Nat),
      (∀ e ∈ querySwapEventsBySender store a lim, e.senderAddress = some a) ∧
      (querySwapEventsBySender store a lim).Pairwise
        (fun e1 e2 => e2.timestamp ≤ e1.timestamp) ∧
      (querySwapEventsBySender store a lim).length ≤ lim := by
  intro store a lim
  refine ⟨?_, ?_, ?_⟩
  · intro e he
    have h1 : e ∈ (store.filter fun x => x.senderAddress == some a).mergeSort
        tsDescBool := List.mem_of_mem_take he
    have h2 : e ∈ store.filter fun x => x.senderAddress == some a :=
      List.mem_mergeSort.mp h1
    have h3 := (List.mem_filter.mp h2).2
    exact eq_of_beq h3
  · have htrans : ∀ e1 e2 e3 : SwapEvent, tsDescBool e1 e2 = true →
        tsDescBool e2 e3 = true → tsDescBool e1 e3 = true := by
      intro e1 e2 e3 h12 h23
      unfold tsDescBool at h12 h23 ⊢
      simp only [decide_eq_true_iff] at h12 h23 ⊢
      omega
    have htotal : ∀ e1 e2 : SwapEvent, (tsDescBool e1 e2 || tsDescBool e2 e1) = true := by
      intro e1 e2
      unfold tsDescBool
      simp only [Bool.or_eq_true, decide_eq_true_iff]
      omega
    have hsorted := List.sorted_mergeSort htrans htotal
      (store.filter fun x => x.senderAddress == some a)
    have hsub : (querySwapEventsBySender store a lim).Sublist
        ((store.filter fun x => x.senderAddress == some a).mergeSort tsDescBool) :=
      List.take_sublist lim _
    refine (List.Pairwise.sublist hsub hsorted).imp ?_
    intro e1 e2 h
    unfold tsDescBool at h
    exact decide_eq_true_iff.mp h
  · unfold querySwapEventsBySender
    rw [List.length_take]
    exact Nat.min_le_left _ _

/-- A concrete run of C3: a three-row store (one foreign sender, one NULL
sender, two rows of the queried sender in timestamp order) queried with
limit 1. -/
theorem query_by_sender_correct_witness :
    (∀ e ∈ querySwapEventsBySender
        [⟨"0xa1", 0, "0xp", "0xt1", "0xt2", 1, 2, some "0xme", 50⟩,
         ⟨"0xa2", 0, "0xp", "0xt1", "0xt2", 1, 2, some "0xother", 60⟩,
         ⟨"0xa3", 0, "0xp", "0xt1", "0xt2", 1, 2, none, 70⟩,
         ⟨"0xa4", 1, "0xp", "0xt1", "0xt2", 1, 2, some "0xme", 80⟩]
        "0xme" 1, e.senderAddress = some "0xme") ∧
    (querySwapEventsBySender
        [⟨"0xa1", 0, "0xp", "0xt1", "0xt2", 1, 2, some "0xme", 50⟩,
         ⟨"0xa2", 0, "0xp", "0xt1", "0xt2", 1, 2, some "0xother", 60⟩,
         ⟨"0xa3", 0, "0xp", "0xt1", "0xt2", 1, 2, none, 70⟩,
         ⟨"0xa4", 1, "0xp", "0xt1", "0xt2", 1, 2, some "0xme", 80⟩]
        "0xme" 1).Pairwise (fun e1 e2 => e2.timestamp ≤ e1.timestamp) ∧
    (querySwapEventsBySender
        [⟨"0xa1", 0, "0xp", "0xt1", "0xt2", 1, 2, some "0xme", 50⟩,
         ⟨"0xa2", 0, "0xp", "0xt1", "0xt2", 1, 2, some "0xother", 60⟩,
         ⟨"0xa3", 0, "0xp", "0xt1", "0xt2", 1, 2, none, 70⟩,
         ⟨"0xa4", 1, "0xp", "0xt1", "0xt2", 1, 2, some "0xme", 80⟩]
        "0xme" 1).length ≤ 1 :=
  query_by_sender_correct
    [⟨"0xa1", 0, "0xp", "0xt1", "0xt2", 1, 2, some "0xme", 50⟩,
     ⟨"0xa2", 0, "0xp", "0xt1", "0xt2", 1, 2, some "0xother", 60⟩,
     ⟨"0xa3", 0, "0xp", "0xt1", "0xt2", 1, 2, none, 70⟩,
     ⟨"0xa4", 1, "0xp", "0xt1", "0xt2", 1, 2, some "0xme", 80⟩]
    "0xme" 1

/-! ## Nullable `sender_address` (the migration in the SQL file) -/

/-- A `swap_events` row as it existed before the migration
`ALTER TABLE swap_events ADD COLUMN IF NOT EXISTS sender_address TEXT`
(the SQL migration file of the repository): no sender column. -/
structure LegacySwapRow where
  txHash : String
  logIndex : Nat
  poolAddress : String
  tokenIn : String
  tokenOut : String
  amountIn : Nat
  amountOut : Nat
  timestamp : Nat
deriving DecidableEq

/-- The migration's effect on a pre-existing row: the new nullable column is
NULL ("Existing rows will have NULL sender_address", per the migration
file's note). -/
def migrateLegacyRow (r : LegacySwapRow) : SwapEvent :=
  { txHash := r.txHash, logIndex := r.logIndex, poolAddress := r.poolAddress,
    tokenIn := r.tokenIn, tokenOut := r.tokenOut, amountIn := r.amountIn,
    amountOut := r.amountOut, senderAddress := none, timestamp := r.timestamp }

/-- The all-zero EVM address. -/
def zeroAddress : String := "0x0000000000000000000000000000000000000000"

/-- C5: `sender_address` is nullable — every row written before the column
existed carries NULL after the migration — and the reader's query never
returns a NULL-sender row for any queried address: in particular a NULL
sender is not conflated with the zero address (querying for `zeroAddress`
cannot surface it), so readers see NULL as "unknown". -/
theorem sender_address_nullable :
    (∀ r : LegacySwapRow, (migrateLegacyRow r).senderAddress = none) ∧
    (∀ (store : List SwapEvent) (lim : Nat) (e : SwapEvent) (a : String),
        e.senderAddress = none → e ∉ querySwapEventsBySender store a lim) := by
  constructor
  · intro r
    rfl
  · intro store lim e a hnull hmem
    have := (query_by_sender_correct store a lim).1 e hmem
    rw [hnull] at this
    cases this

/-- A concrete run of C5: a legacy row migrates to a NULL sender, and a
NULL-sender row in the store is not returned when querying for the zero
address. -/
theorem sender_address_nullable_witness :
    (migrateLegacyRow ⟨"0xbb", 2, "0xp", "0xt1", "0xt2", 3, 4, 90⟩).senderAddress
        = none ∧
    ⟨"0xbb", 2, "0xp", "0xt1", "0xt2", 3, 4, none, 90⟩ ∉
      querySwapEventsBySender
        [⟨"0xbb", 2, "0xp", "0xt1", "0xt2", 3, 4, none, 90⟩] zeroAddress 1000 :=
  ⟨sender_address_nullable.1 ⟨"0xbb", 2, "0xp", "0xt1", "0xt2", 3, 4, 90⟩,
   sender_address_nullable.2
     [⟨"0xbb", 2, "0xp", "0xt1", "0xt2", 3, 4, none, 90⟩] 1000
     ⟨"0xbb", 2, "0xp", "0xt1", "0xt2", 3, 4, none, 90⟩ zeroAddress rfl⟩

/-! ## Chain-client endpoint fallback (`fetchTokenBalance` in
`src/src/hooks/useBridge.ts`) -/

/-- `SEPOLIA_CHAIN_ID` in `useBridge.ts`. -/
def sepoliaChainId : Nat := 11155111

/-- `ARC_CHAIN_ID` in `useBridge.ts`. -/
def arcChainId : Nat := 5042002

/-- `sepoliaRpcUrls` in `fetchTokenBalance`: the endpoints tried in order
for Sepolia. -/
def sepoliaRpcUrls : List String :=
  ["https://ethereum-sepolia-rpc.publicnode.com",
   "https://rpc.sepolia.org",
   "https://sepolia.infura.io/v3/9aa3d95b3bc440fa88ea12eaa4456161"]

/-- `ARC_RPC_URLS` in `useBridge.ts`: the endpoints tried in order for Arc
Testnet. -/
def arcRpcUrls : List String :=
  ["https://rpc.testnet.arc.network/",
   "https://rpc.testnet.arc.network"]

/-- The network environment of one `fetchTokenBalance` call: whether
creating a public client and calling `getBlockNumber` succeeds on each
endpoint (availability), and the outcome of the `balanceOf` read through a
connected endpoint (`none` models a rejected `readContract`). -/
structure RpcEnv where
  avail : String → Bool
  readBalance : String → Option Nat

/-- The endpoint loop of `fetchTokenBalance`.  For each RPC URL the source
assigns `publicClient = createPublicClient(...)` FIRST and only then probes
the endpoint with `await publicClient.getBlockNumber()`; a successful probe
`break`s, a failed probe `continue`s but leaves `publicClient` assigned, so
an exhausted loop ends with the LAST endpoint's client still assigned.
`current` is the `publicClient` variable (`none` models `undefined`); the
result is the endpoint whose client is assigned when the loop ends. -/
def connectLoop (avail : String → Bool) (current : Option String) :
    List String → Option String
  | [] => current
  | u :: us => if avail u then some u else connectLoop avail (some u) us

/-- Outcome of one `fetchTokenBalance` call: the formatted balance, or the
message of the error thrown inside the `try` block. -/
inductive FetchOutcome where
  | ok (balance : Nat)
  | err (msg : String)
deriving DecidableEq

/-- The endpoint list `fetchTokenBalance` consults for a chain id; chains
other than Sepolia and Arc are rejected before any endpoint is tried. -/
def urlsForChain (chainId : Nat) : List String :=
  if chainId = sepoliaChainId then sepoliaRpcUrls
  else if chainId = arcChainId then arcRpcUrls
  else []

/-- `fetchTokenBalance` from `useBridge.ts` (balance path): reject an
unsupported chain, run the endpoint loop, then read the balance through
whichever endpoint's client is left assigned.  The
`if (!publicClient) throw` connect error is kept faithfully, but for the
supported chains (whose URL lists are nonempty) the loop always leaves a
client assigned — even when every probe failed, the last endpoint's client
remains — so the error surfaced when all endpoints are down is the
balance-read failure on the last endpoint, not the connect error. -/
def fetchTokenBalance (env : RpcEnv) (chainId : Nat) : FetchOutcome :=
  if chainId ≠ sepoliaChainId ∧ chainId ≠ arcChainId then
    .err "Chain not supported for token balance fetching"
  else
    match connectLoop env.avail none (urlsForChain chainId) with
    | none => .err "Failed to connect to RPC"
    | some u =>
      match env.readBalance u with
      | some bal => .ok bal
      | none => .err "Unable to fetch balance."

theorem connectLoop_exists_avail (avail : String → Bool) :
    ∀ (urls : List String) (cur : Option String),
      (∃ u ∈ urls, avail u = true) →
      ∃ v, v ∈ urls ∧ avail v = true ∧ connectLoop avail cur urls = some v := by
  intro urls
  induction urls with
  | nil =>
    intro cur h
    rcases h with ⟨u, hu, _⟩
    cases hu
  | cons u us ih =>
    intro cur h
    by_cases hu : avail u = true
    · refine ⟨u, List.mem_cons_self u us, hu, ?_⟩
      simp [connectLoop, hu]
    · have hus : ∃ v ∈ us, avail v = true := by
        rcases h with ⟨v, hv, hav⟩
        rcases List.mem_cons.mp hv with rfl | hm
        · exact absurd hav hu
        · exact ⟨v, hm, hav⟩
      rcases ih (some u) hus with ⟨v, hvm, hav, hloop⟩
      refine ⟨v, List.mem_cons_of_mem u hvm, hav, ?_⟩
      rw [show connectLoop avail cur (u :: us) = connectLoop avail (some u) us by
        simp [connectLoop, hu]]
      exact hloop

theorem connectLoop_all_fail (avail : String → Bool) :
    ∀ (urls : List String) (cur : Option String), urls ≠ [] →
      (∀ u ∈ urls, avail u = false) →
      ∃ v, v ∈ urls ∧ connectLoop avail cur urls = some v := by
  intro urls
  induction urls with
  | nil =>
    intro cur hne _
    exact absurd rfl hne
  | cons u us ih =>
    intro cur _ hall
    have hu : avail u = false := hall u (List.mem_cons_self u us)
    have hstep : connectLoop avail cur (u :: us) = connectLoop avail (some u) us := by
      simp [connectLoop, hu]
    cases us with
    | nil =>
      refine ⟨u, List.mem_cons_self u [], ?_⟩
      rw [hstep]
      rfl
    | cons w ws =>
      rcases ih (some u) (by simp)
          (fun v hv => hall v (List.mem_cons_of_mem u hv)) with ⟨v, hvm, hloop⟩
      exact ⟨v, List.mem_cons_of_mem u hvm, by rw [hstep]; exact hloop⟩

/-- C6: when the primary endpoint of a chain fails its availability probe,
the same call proceeds to the secondary (fallback) endpoint: with the
secondary available, the loop leaves the secondary's client assigned and
the balance call is served by it.  And — reading "endpoint has failed" as
unavailability, so that a down endpoint fails both the probe and the
balance read while an up endpoint serves reads — the caller sees an error
exactly when every configured endpoint of that chain has failed.
Faithfully to the source, an exhausted probe loop still leaves the LAST
endpoint's client assigned (`publicClient` is set before the probe), so the
error surfaced in the all-down case is the balance-read failure on that
last endpoint; the `!publicClient` connect throw is unreachable for
supported chains. -/
theorem rpc_fallback_retry :
    ∀ env : RpcEnv,
      (∀ (p s : String) (rest : List String), env.avail p = false →
        env.avail s = true →
        connectLoop env.avail none (p :: s :: rest) = some s) ∧
      (∀ chainId : Nat, chainId = sepoliaChainId ∨ chainId = arcChainId →
        (∀ u ∈ urlsForChain chainId, (env.readBalance u).isSome = env.avail u) →
        ((∃ msg, fetchTokenBalance env chainId = .err msg) ↔
          ∀ u ∈ urlsForChain chainId, env.avail u = false)) := by
  intro env
  constructor
  · intro p s rest hp hs
    simp [connectLoop, hp, hs]
  · intro chainId hsupp hcoh
    have hnot : ¬ (chainId ≠ sepoliaChainId ∧ chainId ≠ arcChainId) := by
      rcases hsupp with h | h <;> simp [h]
    have hne : urlsForChain chainId ≠ [] := by
      rcases hsupp with h | h <;> subst h <;> decide
    constructor
    · intro ⟨msg, hmsg⟩
      by_contra hnall
      push_neg at hnall
      rcases hnall with ⟨w, hwm, hw⟩
      have hw' : env.avail w = true := by
        cases hv : env.avail w with
        | false => exact absurd hv hw
        | true => rfl
      rcases connectLoop_exists_avail env.avail (urlsForChain chainId) none
          ⟨w, hwm, hw'⟩ with ⟨v, hvm, hav, hloop⟩
      have hread : (env.readBalance v).isSome = true := by
        rw [hcoh v hvm, hav]
      rcases hrb : env.readBalance v with _ | bal
      · rw [hrb] at hread
        exact Bool.noConfusion hread
      · have hfetch : fetchTokenBalance env chainId = FetchOutcome.ok bal := by
          unfold fetchTokenBalance
          rw [if_neg hnot, hloop]
          show (match env.readBalance v with
            | some b => FetchOutcome.ok b
            | none => FetchOutcome.err "Unable to fetch balance.") =
              FetchOutcome.ok bal
          rw [hrb]
        rw [hfetch] at hmsg
        exact FetchOutcome.noConfusion hmsg
    · intro hall
      rcases connectLoop_all_fail env.avail (urlsForChain chainId) none hne hall
        with ⟨v, hvm, hloop⟩
      have hread : (env.readBalance v).isSome = false := by
        rw [hcoh v hvm, hall v hvm]
      rcases hrb : env.readBalance v with _ | bal
      · refine ⟨"Unable to fetch balance.", ?_⟩
        unfold fetchTokenBalance
        rw [if_neg hnot, hloop]
        show (match env.readBalance v with
          | some b => FetchOutcome.ok b
          | none => FetchOutcome.err "Unable to fetch balance.") =
            FetchOutcome.err "Unable to fetch balance."
        rw [hrb]
      · rw [hrb] at hread
        exact Bool.noConfusion hread

/-- A concrete run of C6 on the Arc endpoint pair of `useBridge.ts`: the
primary (trailing-slash) URL fails its probe, the secondary is up, and the
loop leaves the secondary assigned; and with every endpoint down (probe and
read both failing), the caller sees an error, as the instantiated
equivalence states. -/
theorem rpc_fallback_retry_witness :
    connectLoop
        (fun u => u == "https://rpc.testnet.arc.network") none
        ("https://rpc.testnet.arc.network/" :: "https://rpc.testnet.arc.network" :: [])
      = some "https://rpc.testnet.arc.network" ∧
    ((∃ msg, fetchTokenBalance ⟨fun _ => false, fun _ => none⟩ arcChainId
        = .err msg) ↔
      ∀ u ∈ urlsForChain arcChainId, (fun (_ : String) => false) u = false) :=
  ⟨(rpc_fallback_retry ⟨fun u => u == "https://rpc.testnet.arc.network",
      fun _ => none⟩).1
      "https://rpc.testnet.arc.network/" "https://rpc.testnet.arc.network" []
      (by decide) (by decide),
   (rpc_fallback_retry ⟨fun _ => false, fun _ => none⟩).2 arcChainId
      (Or.inr rfl) (by decide)⟩

/-! ## JavaScript primitives used by `useBridge.ts` and `addArcTestnet.ts` -/

/-- Substring test on character lists, used to model JS `String.includes`. -/
def charsHaveSub (needle : List Char) : List Char → Bool
  | [] => needle.isEmpty
  | c :: cs => needle.isPrefixOf (c :: cs) || charsHaveSub needle cs

/-- JS `hay.includes(needle)`. -/
def strIncludes (hay needle : String) : Bool := charsHaveSub needle.data hay.data

/-- JS truthiness of a `string | undefined` value: `undefined` and the empty
string are falsy. -/
def jsTruthy : Option String → Bool
  | none => false
  | some s => !(s == "")

/-- Decimal value of a digit list (most significant first). -/
def digitsVal (l : List Char) : Nat :=
  l.foldl (fun n c => 10 * n + (c.toNat - 48)) 0

/-- The exact decimal a JS `parseFloat` call recognised: sign, the integer
and fraction digits concatenated into one mantissa, the fraction length and
the exponent.  The represented value is
`(-1)^neg * mant / 10^fracLen * 10^exp`. -/
structure JsDecimal where
  neg : Bool
  mant : Nat
  fracLen : Nat
  exp : Int
deriving DecidableEq

/-- The lexical part of JS `parseFloat`: skip leading whitespace, an
optional sign, integer digits, an optional fraction, an optional exponent;
the longest valid prefix is parsed and the rest ignored; `none` models `NaN`
(no digits found). -/
def jsParseParts (s : String) : Option JsDecimal :=
  let cs := s.data.dropWhile Char.isWhitespace
  let signNeg : Bool := match cs with
    | '-' :: _ => true
    | _ => false
  let cs1 : List Char := match cs with
    | '-' :: r => r
    | '+' :: r => r
    | _ => cs
  let ip := cs1.takeWhile Char.isDigit
  let cs2 := cs1.dropWhile Char.isDigit
  let fp : List Char := match cs2 with
    | '.' :: r => r.takeWhile Char.isDigit
    | _ => []
  let cs3 : List Char := match cs2 with
    | '.' :: r => r.dropWhile Char.isDigit
    | _ => cs2
  if ip.isEmpty && fp.isEmpty then none
  else
    let expVal : Int := match cs3 with
      | e :: r =>
        if e = 'e' ∨ e = 'E' then
          match r with
          | '-' :: ds =>
            if (ds.takeWhile Char.isDigit).isEmpty then 0
            else -(digitsVal (ds.takeWhile Char.isDigit) : Int)
          | '+' :: ds =>
            if (ds.takeWhile Char.isDigit).isEmpty then 0
            else (digitsVal (ds.takeWhile Char.isDigit) : Int)
          | ds =>
            if (ds.takeWhile Char.isDigit).isEmpty then 0
            else (digitsVal (ds.takeWhile Char.isDigit) : Int)
        else 0
      | [] => 0
    some ⟨signNeg, digitsVal (ip ++ fp), fp.length, expVal⟩

/-- The exact rational value of a parsed decimal. -/
def JsDecimal.toRat (d : JsDecimal) : ℚ :=
  (if d.neg then -1 else 1) * (d.mant : ℚ) / (10 : ℚ) ^ d.fracLen * (10 : ℚ) ^ d.exp

/-- JS `parseFloat` on decimal literals: the recognised prefix's exact
rational value, `none` for `NaN`.  Values are exact rationals — enough to
settle every comparison `parseFloat(amount) <= 0` the code performs. -/
def jsParseFloat (s : String) : Option ℚ := (jsParseParts s).map JsDecimal.toRat

/-- Computable nonpositivity test of a parsed decimal: negative sign or zero
mantissa; `JsDecimal.nonpos_correct` proves it matches `toRat ≤ 0`. -/
def JsDecimal.nonpos (d : JsDecimal) : Bool := d.neg || d.mant == 0

/-! ## The `bridge` operation of `useBridge.ts` -/

/-- The amount guard of `bridge()` (`useBridge.ts`):
`!amount || parseFloat(amount) <= 0`.  JS comparison semantics: when
`parseFloat` yields `NaN`, `NaN <= 0` is `false`, so the guard does NOT
fire. -/
def amountGuardFails (amount : String) : Bool :=
  amount == "" ||
    (match jsParseFloat amount with
     | some q => decide (q ≤ 0)
     | none => false)

theorem JsDecimal.nonpos_correct (d : JsDecimal) :
    d.nonpos = true ↔ d.toRat ≤ 0 := by
  have hf : (0 : ℚ) < (10 : ℚ) ^ d.fracLen := by positivity
  have he : (0 : ℚ) < (10 : ℚ) ^ d.exp := by positivity
  unfold JsDecimal.nonpos JsDecimal.toRat
  cases hn : d.neg with
  | true =>
    rw [Bool.true_or]
    simp only [eq_self_iff_true, true_iff]
    rw [if_pos trivial]
    have hx : (0 : ℚ) ≤ (d.mant : ℚ) / (10 : ℚ) ^ d.fracLen * (10 : ℚ) ^ d.exp := by
      positivity
    have hrw : (-1 : ℚ) * (d.mant : ℚ) / (10 : ℚ) ^ d.fracLen * (10 : ℚ) ^ d.exp
        = -((d.mant : ℚ) / (10 : ℚ) ^ d.fracLen * (10 : ℚ) ^ d.exp) := by
      ring
    rw [hrw]
    linarith
  | false =>
    rw [Bool.false_or, if_neg (by decide)]
    have hrw : (1 : ℚ) * (d.mant : ℚ) / (10 : ℚ) ^ d.fracLen * (10 : ℚ) ^ d.exp
        = (d.mant : ℚ) / (10 : ℚ) ^ d.fracLen * (10 : ℚ) ^ d.exp := by
      ring
    rw [hrw, beq_iff_eq]
    constructor
    · intro hm
      rw [hm]
      norm_num
    · intro hle
      by_contra hne
      have hm : (0 : ℚ) < (d.mant : ℚ) := by
        exact_mod_cast Nat.pos_of_ne_zero hne
      have hpos : (0 : ℚ) < (d.mant : ℚ) / (10 : ℚ) ^ d.fracLen * (10 : ℚ) ^ d.exp := by
        positivity
      linarith

theorem amountGuardFails_eq (s : String) :
    amountGuardFails s =
      (s == "" ||
        (match jsParseParts s with
         | some d => d.nonpos
         | none => false)) := by
  unfold amountGuardFails jsParseFloat
  rcases h : jsParseParts s with _ | d
  · rfl
  · show (s == "" || decide (d.toRat ≤ 0)) = (s == "" || d.nonpos)
    have : decide (d.toRat ≤ 0) = d.nonpos := by
      rcases hn : d.nonpos with _ | _
      · rw [decide_eq_false]
        intro hle
        have := (JsDecimal.nonpos_correct d).mpr hle
        rw [hn] at this
        exact Bool.noConfusion this
      · exact decide_eq_true ((JsDecimal.nonpos_correct d).mp hn)
    rw [this]

/-- One entry of the Bridge Kit result's `steps` array. -/
structure KitStep where
  name : String
  state : String
  txHash : Option String
deriving DecidableEq

/-- The Bridge Kit result object as `bridge()` inspects it: the `steps`
array when present (`none` models a result without a steps array, an empty
JS array is `some []`), and the alternative top-level hash fields probed by
the fallback path. -/
structure KitResult where
  steps : Option (List KitStep)
  txHash : Option String
  sourceTxHash : Option String
  sourceTransactionHash : Option String
  fromTxHash : Option String
  receiveTxHash : Option String
  receiveTransactionHash : Option String
  toTxHash : Option String
  destinationTxHash : Option String
deriving DecidableEq

/-- JS `a || b` on `string | undefined` values: the first truthy operand. -/
def jsOr2 (a b : Option String) : Option String := if jsTruthy a then a else b

/-- The `forEach` loop of `bridge()` over the result's steps: `burn` sets
the source hash, `mint` sets the receive hash, `approve` sets the source
hash only as a fallback when none was found yet.  Accumulator is
`(sourceTxHash, receiveTxHash)`, starting `(undefined, undefined)`. -/
def extractFromSteps (steps : List KitStep) : Option String × Option String :=
  steps.foldl
    (fun acc step =>
      if step.name == "burn" && jsTruthy step.txHash then (step.txHash, acc.2)
      else if step.name == "mint" && jsTruthy step.txHash then (acc.1, step.txHash)
      else if step.name == "approve" && jsTruthy step.txHash && !(jsTruthy acc.1) then
        (step.txHash, acc.2)
      else acc)
    (none, none)

/-- The fallback extraction of `bridge()` when the result has no steps
array: probe `txHash`, then `sourceTxHash || sourceTransactionHash ||
fromTxHash`, then the four receive-side field names. -/
def extractFallback (r : KitResult) : Option String × Option String :=
  let s1 : Option String := if jsTruthy r.txHash then r.txHash else none
  let src3 := jsOr2 r.sourceTxHash (jsOr2 r.sourceTransactionHash r.fromTxHash)
  let s2 := if jsTruthy src3 then src3 else s1
  let rcv4 := jsOr2 r.receiveTxHash
    (jsOr2 r.receiveTransactionHash (jsOr2 r.toTxHash r.destinationTxHash))
  let r1 : Option String := if jsTruthy rcv4 then rcv4 else none
  (s2, r1)

/-- Hash extraction of `bridge()`: the steps loop when a steps array exists,
the fallback probing otherwise. -/
def extractHashes (r : KitResult) : Option String × Option String :=
  match r.steps with
  | some steps => extractFromSteps steps
  | none => extractFallback r

/-- One entry of `kit.getSupportedChains()`: `isEVM` models
`'chainId' in c`. -/
structure ChainEntry where
  isEVM : Bool
  chainId : Nat
  name : String
deriving DecidableEq

/-- The alternative Sepolia search of `bridge()`: an EVM chain that is not
Base (84532) or Arbitrum (421614) Sepolia, whose lowercased name mentions
ethereum+sepolia, or sepolia without base/arbitrum. -/
def sepoliaNameFallback (c : ChainEntry) : Bool :=
  c.isEVM && !(c.chainId == 84532) && !(c.chainId == 421614) &&
    ((strIncludes c.name.toLower "ethereum" && strIncludes c.name.toLower "sepolia") ||
     (strIncludes c.name.toLower "sepolia" && !(strIncludes c.name.toLower "base") &&
       !(strIncludes c.name.toLower "arbitrum")))

/-- The alternative Arc search of `bridge()`: an EVM chain whose lowercased
name mentions arc. -/
def arcNameFallback (c : ChainEntry) : Bool :=
  c.isEVM && strIncludes c.name.toLower "arc"

/-- Chain lookup of `bridge()`: find by exact chain id first, then by the
per-chain name fallback. -/
def findBridgeChain (chains : List ChainEntry) (cid : Nat) : Option ChainEntry :=
  match chains.find? (fun c => c.isEVM && c.chainId == cid) with
  | some c => some c
  | none =>
    if cid = sepoliaChainId then chains.find? sepoliaNameFallback
    else if cid = arcChainId then chains.find? arcNameFallback
    else none

/-- The environment of one `bridge()` call: the hook's wagmi state and the
outcome of each awaited external interaction.  `kitOutcome` is `kit.bridge`:
a resolved `KitResult` or the message of its rejection. -/
structure BridgeEnv where
  isConnected : Bool
  address : Option String
  chainId : Option Nat
  providerFound : Bool
  adapterOk : Bool
  supportedChains : List ChainEntry
  switchOk : Bool
  kitOutcome : Except String KitResult

/-- The `try` block of `bridge()` after the entry guards: provider lookup,
adapter creation, chain selection, optional chain switch, `kit.bridge`, and
hash extraction; `Except.error` is the thrown error's message.  The second
component records the chain interactions performed, in order (`kitBridge`
covers Bridge Kit's approval, transfer and receive transactions). -/
def bridgeTryAux (env : BridgeEnv) (sourceChainId destinationChainId : Nat) :
    Except String (Option String × Option String) × List String :=
  if !env.providerFound then
    (.error "Wallet not found. Please connect your wallet first.", ["providerLookup"])
  else if !env.adapterOk then
    (.error "Failed to create adapter from wallet provider",
      ["providerLookup", "createAdapter"])
  else
    match findBridgeChain env.supportedChains sourceChainId with
    | none =>
      (.error "source chain is not supported by Bridge Kit.",
        ["providerLookup", "createAdapter"])
    | some sourceChain =>
      match findBridgeChain env.supportedChains destinationChainId with
      | none =>
        (.error "destination chain is not supported by Bridge Kit.",
          ["providerLookup", "createAdapter"])
      | some _ =>
        if !(sourceChain.chainId == sourceChainId) then
          (.error "Incorrect source chain selected!", ["providerLookup", "createAdapter"])
        else
          let preReqs :=
            if env.chainId == some sourceChainId then ["providerLookup", "createAdapter"]
            else ["providerLookup", "createAdapter", "switchChain"]
          if !(env.chainId == some sourceChainId) && !env.switchOk then
            (.error "Failed to switch chain", preReqs)
          else
            match env.kitOutcome with
            | .error e => (.error e, preReqs ++ ["kitBridge"])
            | .ok result =>
              let hashes := extractHashes result
              if !(jsTruthy hashes.2) then
                if !(jsTruthy hashes.1) then
                  (.error "Transaction was cancelled. No tokens were bridged.",
                    preReqs ++ ["kitBridge"])
                else
                  (.error "Transaction was cancelled during the receive step. Your tokens may still be in transit. Please check your transactions.",
                    preReqs ++ ["kitBridge"])
              else (.ok hashes, preReqs ++ ["kitBridge"])

/-- The source and destination chain ids of `bridge()`, computed from the
direction string (`isSepoliaToArc` in the source), then the `try` block. -/
def bridgeTry (env : BridgeEnv) (direction : String) :
    Except String (Option String × Option String) × List String :=
  bridgeTryAux env
    (if direction == "sepolia-to-arc" then sepoliaChainId else arcChainId)
    (if direction == "sepolia-to-arc" then arcChainId else sepoliaChainId)

/-- The user-rejection patterns of the `catch` block of `bridge()`. -/
def isUserRejection (es : String) : Bool :=
  strIncludes es "User rejected" || strIncludes es "User denied" ||
  strIncludes es "rejected the request" || strIncludes es "User rejected the request" ||
  strIncludes es "user rejected" || strIncludes es "user denied" ||
  strIncludes es "cancelled" || strIncludes es "ACTION_REJECTED" ||
  strIncludes es "4001" || strIncludes es "Transaction was cancelled"

/-- The error-message mapping of the `catch` block of `bridge()`.  The
wrong-contract advice text is abbreviated here; the claims quantify only
over the message's presence, never its wording. -/
def mapBridgeError (e token : String) : String :=
  if isUserRejection e then "Transaction was cancelled. No tokens were bridged."
  else if strIncludes e "Insufficient funds" then
    "Wrong " ++ token ++ " contract address: Bridge Kit requires the official Circle contract."
  else if e == "" then "Bridge transaction failed"
  else e

/-- The hook's `BridgeState` (`useBridge.ts`): the `result` field (the raw
kit object) is omitted, no claim inspects it. -/
structure BridgeState where
  step : String
  error : Option String
  sourceTxHash : Option String
  receiveTxHash : Option String
  direction : Option String
  isLoading : Bool
deriving DecidableEq

/-- `bridge()` from `useBridge.ts`: the connection guard, the amount guard,
then the `try` block; a thrown error lands in the `catch`, which sets step
`error` with both transaction hashes `undefined`; a result with a truthy
receive hash sets step `success`.  Returns the final state and the list of
chain interactions performed. -/
def bridge (env : BridgeEnv) (token amount direction : String) :
    BridgeState × List String :=
  if !(env.isConnected && env.address.isSome) then
    (⟨"error", some "Please connect your wallet first", none, none, none, false⟩, [])
  else if amountGuardFails amount then
    (⟨"error", some ("Please enter a valid " ++ token ++ " amount"),
      none, none, none, false⟩, [])
  else
    match bridgeTry env direction with
    | (.ok hashes, reqs) =>
      (⟨"success", none, hashes.1, hashes.2, some direction, false⟩, reqs)
    | (.error e, reqs) =>
      (⟨"error", some (mapBridgeError e token), none, none, none, false⟩, reqs)

theorem bridgeTryAux_ok (env : BridgeEnv) (sid did : Nat)
    (hashes : Option String × Option String) (reqs : List String)
    (h : bridgeTryAux env sid did = (.ok hashes, reqs)) :
    ∃ r : KitResult, env.kitOutcome = .ok r ∧ hashes = extractHashes r ∧
      jsTruthy (extractHashes r).2 = true := by
  unfold bridgeTryAux at h
  repeat' split at h
  any_goals exact Except.noConfusion (congrArg Prod.fst h)
  all_goals
    rename_i val heq
    simp only [] at h
    cases hrcv : jsTruthy (extractHashes val).2 with
    | false =>
      rw [hrcv] at h
      simp only [Bool.not_false, eq_self_iff_true, if_true] at h
      split at h <;> exact Except.noConfusion (congrArg Prod.fst h)
    | true =>
      rw [hrcv] at h
      simp only [Bool.not_true, Bool.false_eq_true, if_false] at h
      simp only [Prod.mk.injEq, Except.ok.injEq] at h
      exact ⟨val, heq, h.1.symm, hrcv⟩

theorem bridgeTry_ok (env : BridgeEnv) (direction : String)
    (hashes : Option String × Option String) (reqs : List String)
    (h : bridgeTry env direction = (.ok hashes, reqs)) :
    ∃ r : KitResult, env.kitOutcome = .ok r ∧ hashes = extractHashes r ∧
      jsTruthy (extractHashes r).2 = true :=
  bridgeTryAux_ok env _ _ hashes reqs h

/-- C8: a `bridge()` call ends in step `success` or step `error`; it ends in
`success` only when a truthy receive (destination mint) transaction hash was
extracted from the Bridge Kit result, and then the state's `receiveTxHash`
is that extracted hash; every `error` outcome — including the one taken
whenever no receive hash is found, which throws and lands in the `catch` —
carries `sourceTxHash` and `receiveTxHash` both `undefined`. -/
theorem bridge_success_iff_receive_hash :
    ∀ (env : BridgeEnv) (token amount direction : String),
      ((bridge env token amount direction).1.step = "success" ∨
        (bridge env token amount direction).1.step = "error") ∧
      ((bridge env token amount direction).1.step = "success" →
        ∃ r : KitResult, env.kitOutcome = .ok r ∧
          (bridge env token amount direction).1.receiveTxHash = (extractHashes r).2 ∧
          jsTruthy (extractHashes r).2 = true) ∧
      ((bridge env token amount direction).1.step = "error" →
        (bridge env token amount direction).1.sourceTxHash = none ∧
        (bridge env token amount direction).1.receiveTxHash = none) := by
  intro env token amount direction
  unfold bridge
  split
  · exact ⟨Or.inr rfl, fun hs => by simp at hs, fun _ => ⟨rfl, rfl⟩⟩
  · split
    · exact ⟨Or.inr rfl, fun hs => by simp at hs, fun _ => ⟨rfl, rfl⟩⟩
    · split
      · rename_i hashes reqs heq
        refine ⟨Or.inl rfl, ?_, fun he => by simp at he⟩
        intro _
        rcases bridgeTry_ok env direction hashes reqs heq with ⟨r, hk, hh, ht⟩
        exact ⟨r, hk, by rw [hh], ht⟩
      · exact ⟨Or.inr rfl, fun hs => by simp at hs, fun _ => ⟨rfl, rfl⟩⟩

/-- The supported-chain list used in the concrete `bridge()` runs. -/
def cexChains : List ChainEntry :=
  [⟨true, 11155111, "Ethereum Sepolia"⟩, ⟨true, 5042002, "Arc Testnet"⟩]

/-- The environment of the concrete C9 run: wallet connected, already on
Sepolia, provider and adapter fine; `kit.bridge` rejects (as it would on a
nonsense amount). -/
def cexEnv : BridgeEnv :=
  { isConnected := true, address := some "0xabc", chainId := some sepoliaChainId,
    providerFound := true, adapterOk := true, supportedChains := cexChains,
    switchOk := true, kitOutcome := .error "Amount is not a valid number" }

/-- C9 counterexample, refuting the claim as stated: the amount string
"abc" does not parse to a strictly positive number (`parseFloat("abc")` is
`NaN`, modelled `none`), yet a connected `bridge()` call with it passes the
guard — `!amount || parseFloat(amount) <= 0` is false because `NaN <= 0` is
false in JS — and initiates chain interaction: provider lookup, adapter
creation and `kit.bridge` (which performs approval and transfer). -/
theorem bridge_guard_nan_counterexample :
    jsParseFloat "abc" = none ∧
    (bridge cexEnv "USDC" "abc" "sepolia-to-arc").2 =
      ["providerLookup", "createAdapter", "kitBridge"] ∧
    (bridge cexEnv "USDC" "abc" "sepolia-to-arc").2 ≠ [] := by
  refine ⟨rfl, ?_, ?_⟩ <;> decide

/-- C9 (amended): a `bridge()` call made while the wallet is not connected
or has no account address, or whose amount string is empty or parses via
`parseFloat` to a number less than or equal to zero, ends in step `error`
with an explanatory message and performs no chain interaction.  (As the
counterexample shows, the guard does not reject amount strings `parseFloat`
cannot parse at all.) -/
theorem bridge_guard_rejects_nonpositive :
    ∀ (env : BridgeEnv) (token amount direction : String),
      (env.isConnected = false ∨ env.address = none ∨ amount = "" ∨
        (∃ q : ℚ, jsParseFloat amount = some q ∧ q ≤ 0)) →
      (bridge env token amount direction).1.step = "error" ∧
      (bridge env token amount direction).1.error.isSome = true ∧
      (bridge env token amount direction).2 = [] := by
  intro env token amount direction h
  unfold bridge
  cases hcb : (env.isConnected && env.address.isSome) with
  | false =>
    rw [if_pos (show (!false) = true from rfl)]
    exact ⟨rfl, rfl, rfl⟩
  | true =>
    rw [Bool.and_eq_true] at hcb
    have hguard : amountGuardFails amount = true := by
      rcases h with h | h | h | ⟨q, hq, hle⟩
      · rw [h] at hcb
        exact Bool.noConfusion hcb.1
      · rw [h] at hcb
        exact Bool.noConfusion hcb.2
      · rw [h]
        rfl
      · unfold amountGuardFails
        rw [hq]
        show (amount == "" || decide (q ≤ 0)) = true
        rw [decide_eq_true hle]
        exact Bool.or_true _
    rw [if_neg (show ¬ ((!true) = true) by decide), if_pos hguard]
    exact ⟨rfl, rfl, rfl⟩

/-- A concrete run of amended C9: a connected call with amount "-5"
(`parseFloat` gives -5 ≤ 0) errors out with a message and performs no chain
interaction. -/
theorem bridge_guard_rejects_nonpositive_witness :
    (cexEnv.isConnected = false ∨ cexEnv.address = none ∨ "-5" = "" ∨
      (∃ q : ℚ, jsParseFloat "-5" = some q ∧ q ≤ 0)) ∧
    (bridge cexEnv "USDC" "-5" "sepolia-to-arc").1.step = "error" ∧
    (bridge cexEnv "USDC" "-5" "sepolia-to-arc").1.error.isSome = true ∧
    (bridge cexEnv "USDC" "-5" "sepolia-to-arc").2 = [] := by
  have hq : ∃ q : ℚ, jsParseFloat "-5" = some q ∧ q ≤ 0 := by
    refine ⟨(⟨true, 5, 0, 0⟩ : JsDecimal).toRat, ?_, ?_⟩
    · show (jsParseParts "-5").map JsDecimal.toRat = _
      rw [show jsParseParts "-5" = some ⟨true, 5, 0, 0⟩ from rfl]
      rfl
    · exact (JsDecimal.nonpos_correct ⟨true, 5, 0, 0⟩).mp rfl
  exact ⟨Or.inr (Or.inr (Or.inr hq)),
    bridge_guard_rejects_nonpositive cexEnv "USDC" "-5" "sepolia-to-arc"
      (Or.inr (Or.inr (Or.inr hq)))⟩

/-- The Bridge Kit result of the successful concrete C8 run: the four-step
approve/burn/fetchAttestation/mint shape the source documents. -/
def okKitResult : KitResult :=
  { steps := some
      [⟨"approve", "done", some "0xapp"⟩, ⟨"burn", "done", some "0xburn"⟩,
       ⟨"fetchAttestation", "done", none⟩, ⟨"mint", "done", some "0xmint"⟩],
    txHash := none, sourceTxHash := none, sourceTransactionHash := none,
    fromTxHash := none, receiveTxHash := none, receiveTransactionHash := none,
    toTxHash := none, destinationTxHash := none }

/-- The environment of the successful concrete C8 run. -/
def okEnv : BridgeEnv := { cexEnv with kitOutcome := .ok okKitResult }

/-- A concrete run of C8: the successful bridge ends in step `success` and
its `receiveTxHash` is the mint step's hash. -/
theorem bridge_success_iff_receive_hash_witness :
    (bridge okEnv "USDC" "10" "sepolia-to-arc").1.step = "success" ∧
    ∃ r : KitResult, okEnv.kitOutcome = .ok r ∧
      (bridge okEnv "USDC" "10" "sepolia-to-arc").1.receiveTxHash =
        (extractHashes r).2 ∧
      jsTruthy (extractHashes r).2 = true := by
  have hg : amountGuardFails "10" = false := by
    rw [amountGuardFails_eq]
    rfl
  have hstep : (bridge okEnv "USDC" "10" "sepolia-to-arc").1.step = "success" := by
    unfold bridge
    rw [if_neg (by decide), if_neg (by simp [hg])]
    rfl
  exact ⟨hstep,
    (bridge_success_iff_receive_hash okEnv "USDC" "10" "sepolia-to-arc").2.1 hstep⟩

/-! ## `addArcTestnetToWallet` (`src/utils/addArcTestnet.ts`) -/

/-- Outcome of one `ethereum.request` call: resolution, or rejection with a
JSON-RPC error code and message. -/
inductive ReqResult where
  | ok
  | err (code : Int) (msg : String)
deriving DecidableEq

/-- The wallet environment of one `addArcTestnetToWallet` call: whether
`window.ethereum` exists, and the outcome of each request the call can
issue — the initial `wallet_switchEthereumChain`, the
`wallet_addEthereumChain`, and the retry switch attempted inside the catch
block. -/
structure WalletEnv where
  hasEthereum : Bool
  switchFirst : ReqResult
  addChain : ReqResult
  switchRetry : ReqResult
deriving DecidableEq

/-- How one `addArcTestnetToWallet` call ends: a normal return, or a thrown
error with its message. -/
inductive AddOutcome where
  | success
  | thrown (msg : String)
deriving DecidableEq

/-- Result of one `addArcTestnetToWallet` call: the outcome, the value of
the module-level `isAddingChain` flag at the moment the call returns or
throws (after a successful `wallet_addEthereumChain` the flag is still
`true`: the code only clears it in a 2-second `setTimeout`), and the wallet
requests issued, in order. -/
structure AddResult where
  outcome : AddOutcome
  isAddingChain : Bool
  requests : List String
deriving DecidableEq

/-- The message thrown by the duplicate-request guard at the top of
`addArcTestnetToWallet`. -/
def inProgressGuardMsg : String :=
  "A request to add Arc Testnet is already in progress. Please wait and check MetaMask."

/-- The outer `catch` block of `addArcTestnetToWallet`: the flag has just
been cleared; map code 4001 to a user-rejection message, -32002 or "already
pending" to an in-progress message, 4902 or "Unrecognized chain" to a retry
switch (a success there returns normally), "Expected the number 18" to a
configuration message, anything else is rethrown. -/
def addCatch (env : WalletEnv) (code : Int) (msg : String) (reqs : List String) :
    AddResult :=
  if code == 4001 then
    ⟨.thrown "User rejected adding Arc Testnet to wallet.", false, reqs⟩
  else if code == -32002 || strIncludes msg "already pending" then
    ⟨.thrown "A request to add Arc Testnet is already in progress. Please check MetaMask and wait for it to complete.",
      false, reqs⟩
  else if code == 4902 || strIncludes msg "Unrecognized chain" then
    match env.switchRetry with
    | .ok => ⟨.success, false, reqs ++ ["wallet_switchEthereumChain"]⟩
    | .err _ _ =>
      ⟨.thrown "Failed to switch to Arc Testnet. Please switch manually in MetaMask.",
        false, reqs ++ ["wallet_switchEthereumChain"]⟩
  else if strIncludes msg "Expected the number 18" then
    ⟨.thrown "MetaMask configuration error. Please add Arc Testnet manually in MetaMask settings.",
      false, reqs⟩
  else ⟨.thrown msg, false, reqs⟩

/-- `addArcTestnetToWallet` from `src/utils/addArcTestnet.ts`, as a function
of the wallet environment and the `isAddingChain` flag's value at entry:
throw if MetaMask is missing; throw the in-progress guard if the flag is
set; otherwise set the flag, try the switch (success returns with the flag
cleared), on a non-4902 switch error run the catch (the inner catch clears
the flag and rethrows), on 4902 add the chain — success returns with the
flag still set until the 2-second timeout — and a failed add runs the
catch. -/
def addArcTestnetToWallet (env : WalletEnv) (isAddingChain0 : Bool) : AddResult :=
  if !env.hasEthereum then
    ⟨.thrown "MetaMask not found. Please install MetaMask.", isAddingChain0, []⟩
  else if isAddingChain0 then
    ⟨.thrown inProgressGuardMsg, isAddingChain0, []⟩
  else
    match env.switchFirst with
    | .ok => ⟨.success, false, ["wallet_switchEthereumChain"]⟩
    | .err c m =>
      if !(c == 4902) then addCatch env c m ["wallet_switchEthereumChain"]
      else
        match env.addChain with
        | .ok =>
          ⟨.success, true, ["wallet_switchEthereumChain", "wallet_addEthereumChain"]⟩
        | .err c2 m2 =>
          addCatch env c2 m2 ["wallet_switchEthereumChain", "wallet_addEthereumChain"]

theorem addCatch_flag_false (env : WalletEnv) (code : Int) (msg : String)
    (reqs : List String) : (addCatch env code msg reqs).isAddingChain = false := by
  unfold addCatch
  repeat' split
  all_goals rfl

/-- C10: while one `addArcTestnetToWallet` invocation is in progress (the
module-level `isAddingChain` flag is set), a second invocation throws the
"already in progress" error and issues no wallet request — so at most one
add-chain/switch-chain request sequence is active at a time — and an
invocation that starts with the flag clear leaves it cleared on every path
that throws (the catch block clears it on entry; only the successful
add-chain return leaves it set, pending the 2-second timeout, and that path
is not an error path). -/
theorem add_chain_single_flight :
    ∀ (env : WalletEnv) (flag : Bool),
      (flag = true → env.hasEthereum = true →
        (addArcTestnetToWallet env flag).outcome = .thrown inProgressGuardMsg ∧
        (addArcTestnetToWallet env flag).requests = []) ∧
      (flag = false → ∀ m : String,
        (addArcTestnetToWallet env flag).outcome = .thrown m →
        (addArcTestnetToWallet env flag).isAddingChain = false) := by
  intro env flag
  constructor
  · intro hf he
    subst hf
    unfold addArcTestnetToWallet
    rw [he]
    exact ⟨rfl, rfl⟩
  · intro hf m
    subst hf
    unfold addArcTestnetToWallet
    cases he : env.hasEthereum with
    | false =>
      intro _
      rfl
    | true =>
      rw [if_neg (show ¬ ((!true) = true) by decide)]
      rw [if_neg (show ¬ (false = true) by decide)]
      rcases hs : env.switchFirst with _ | ⟨c, m1⟩
      · intro hcontra
        simp at hcontra
      · simp only []
        by_cases hc : (!(c == 4902)) = true
        · rw [if_pos hc]
          intro _
          exact addCatch_flag_false env c m1 _
        · rw [if_neg hc]
          rcases ha : env.addChain with _ | ⟨c2, m2⟩
          · intro hcontra
            simp at hcontra
          · intro _
            exact addCatch_flag_false env c2 m2 _

/-- A concrete run of C10: with a first invocation in flight (flag set), the
second throws the guard message and issues no request; and a run with the
flag clear whose first switch is rejected with code 4001 throws the
user-rejection message with the flag cleared. -/
theorem add_chain_single_flight_witness :
    ((addArcTestnetToWallet ⟨true, .ok, .ok, .ok⟩ true).outcome =
        .thrown inProgressGuardMsg ∧
      (addArcTestnetToWallet ⟨true, .ok, .ok, .ok⟩ true).requests = []) ∧
    (addArcTestnetToWallet
        ⟨true, .err 4001 "User rejected the request.", .ok, .ok⟩
        false).isAddingChain = false :=
  ⟨(add_chain_single_flight ⟨true, .ok, .ok, .ok⟩ true).1 rfl rfl,
   (add_chain_single_flight
       ⟨true, .err 4001 "User rejected the request.", .ok, .ok⟩ false).2 rfl
     "User rejected adding Arc Testnet to wallet." (by decide)⟩

end Defi
